import Mathlib

/-!
Verification development for the XSLT invoice-generation pipeline of the
xslt-generator repository.  The serializer utilities (`src/helpers/xml.ts`),
the transformer wrapper (`transformXml`), the stylesheet fetcher
(`src/lib/invoice-generator/index.ts`) and the invoice assembly template
(`src/pages/invoice-preview/page.tsx`) are embedded shallowly: JavaScript
strings become Lean `String`, the scalar values of `BaseXmlItem`
(`string | number | boolean`) become `JsValue` (numbers are modelled as
integers, the only numbers the repository produces), JavaScript objects
become ordered association lists mirroring `Object.entries` insertion order,
and the platform collaborators (XSLTProcessor, DOMParser, fetch) are modelled
as explicit capability records or, for parsing, a minimal executable parser.
-/

set_option maxRecDepth 4096

namespace XsltGen

/-- Scalar values of `BaseXmlItem = Record<string, string | number | boolean>`
(`src/types/index.ts`).  Numbers are modelled as integers: every number the
repository feeds to the serializers is produced by `faker.number.int`. -/
inductive JsValue where
  | str (s : String)
  | num (n : Int)
  | boolean (b : Bool)
deriving DecidableEq, Repr

/-- JavaScript default text coercion of a scalar as performed by template
literal interpolation: strings unchanged, integers in decimal form, booleans
as `true` / `false`. -/
def jsValueToString : JsValue → String
  | .str s => s
  | .num n => toString n
  | .boolean b => if b then "true" else "false"

/-- A `BaseXmlItem`: an ordered list of key/value entries, mirroring the
enumeration order of `Object.entries`. -/
abbrev XmlItem := List (String × JsValue)

/-- JavaScript `Array.prototype.join` with the empty separator, used by
`listToXml` via `.join("")`: plain concatenation. -/
def strConcat : List String → String
  | [] => ""
  | s :: rest => s ++ strConcat rest

/-- JavaScript default array-to-string coercion, triggered when an array is
interpolated into a template literal without an explicit join: the elements
joined by a single comma. -/
def jsArrayToString : List String → String
  | [] => ""
  | [s] => s
  | s :: s2 :: rest => s ++ "," ++ jsArrayToString (s2 :: rest)

/-- Embedding of `variableToXml` (`src/helpers/xml.ts`, lines 79 to 81):
the template literal produces the open tag, the interpolated value and the
close tag.  The TypeScript type restricts `value` to `string`; the
template interpolation itself coerces any scalar, so the embedding takes a
`JsValue` and applies the default text coercion, which is the identity on
strings. -/
def variableToXml (name : String) (value : JsValue) : String :=
  "<" ++ name ++ ">" ++ jsValueToString value ++ "</" ++ name ++ ">"

/-- The per-entry fragment `<key>value</key>` built inline by the arrow
function inside `objectToXml` and `listToXml`. -/
def entryFragment (kv : String × JsValue) : String :=
  "<" ++ kv.1 ++ ">" ++ jsValueToString kv.2 ++ "</" ++ kv.1 ++ ">"

/-- Embedding of `objectToXml` (`src/helpers/xml.ts`, lines 73 to 77).  The
source interpolates the array produced by `Object.entries(obj).map(...)`
directly into the template literal without `.join("")`, so JavaScript
coerces the array with comma separators; the template contributes a newline
plus four spaces after the open tag and a newline plus two spaces before the
close tag. -/
def objectToXml (tagName : String) (obj : XmlItem) : String :=
  "<" ++ tagName ++ ">\n    " ++
    jsArrayToString (obj.map entryFragment) ++
    "\n  </" ++ tagName ++ ">"

/-- Embedding of `listToXml` (`src/helpers/xml.ts`, lines 50 to 65).  The
outer item blocks are joined with `.join("")` (no separator); inside each
block the entry-fragment array is again interpolated without a join, hence
comma-coerced, between a newline plus twelve spaces and a newline plus eight
spaces coming from the template literal. -/
def listToXml (tagName itemName : String) (items : List XmlItem) : String :=
  "<" ++ tagName ++ ">" ++
    strConcat (items.map (fun item =>
      "<" ++ itemName ++ ">\n            " ++
        jsArrayToString (item.map entryFragment) ++
        "\n        </" ++ itemName ++ ">")) ++
    "</" ++ tagName ++ ">"

/-- The per-item block template of `listToXml`: exactly the string the inner
arrow function produces for one item. -/
def invoiceItemBlock (itemName : String) (item : XmlItem) : String :=
  "<" ++ itemName ++ ">\n            " ++
    jsArrayToString (item.map entryFragment) ++
    "\n        </" ++ itemName ++ ">"

/-- State of the XSLTProcessor parameter table: the chronological list of
`setParameter(null, key, value)` calls.  A later call for the same name
overrides an earlier one, so a lookup returns the value of the last call. -/
abbrev ProcParams := List (String × JsValue)

/-- One `xsltProcessor.setParameter(null, key, value)` call appended to the
history. -/
def setParameter (st : ProcParams) (key : String) (value : JsValue) : ProcParams :=
  st ++ [(key, value)]

/-- The binding a parameter name resolves to: the value of the most recent
`setParameter` call for that name, if any. -/
def getParameter (st : ProcParams) (key : String) : Option JsValue :=
  (st.reverse.find? (fun kv => kv.1 == key)).map (fun kv => kv.2)

/-- The parameter-registration phase of `transformXml`
(`src/helpers/xml.ts`, lines 23 to 34): every caller entry is registered in
enumeration order, then `create-date` is unconditionally registered with the
formatted current timestamp (the `Intl.DateTimeFormat` output is taken as an
input string `nowFormatted`, since the clock and locale tables live outside
the program). -/
def registerParams (params : List (String × JsValue)) (nowFormatted : String) : ProcParams :=
  setParameter
    (params.foldl (fun st kv => setParameter st kv.1 kv.2) [])
    "create-date" (.str nowFormatted)

/-- The platform transformation capability behind
`importStylesheet` / `transformToDocument` / `XMLSerializer`: given the
stylesheet text, the source text and the final parameter table, it yields the
serialized result markup.  The browser engine is outside the program, so it
is a capability record the embedding is parameterized by. -/
structure XsltPlatform where
  applyTransform : String → String → ProcParams → String

/-- Embedding of `transformXml` (`src/helpers/xml.ts`, lines 10 to 41):
parse both inputs, import the stylesheet, register caller parameters, then
unconditionally register `create-date`, transform and serialize.  All the
observable structure of the call is which stylesheet text, which source text
and which final parameter table reach the platform. -/
def transformXml (platform : XsltPlatform) (nowFormatted : String)
    (xsltString xmlString : String) (params : List (String × JsValue)) : String :=
  platform.applyTransform xsltString xmlString (registerParams params nowFormatted)

/-- A fetch response as observed by `generateInvoiceHtml`: a status, the
derived success flag, and the body text that `response.text()` resolves to. -/
structure FetchResponse where
  status : Nat
  ok : Bool
  bodyText : String

/-- Embedding of `generateInvoiceHtml`
(`src/lib/invoice-generator/index.ts`, lines 4 to 19): fetch the resource at
`xsltPath` (the response is an input, the network being outside the
program), read its body text with no status or `ok` check, hand it to
`transformXml` as the stylesheet together with the XML string and the
parameters, and return the result directly. -/
def generateInvoiceHtml (platform : XsltPlatform) (nowFormatted : String)
    (response : FetchResponse) (xmlString : String)
    (params : List (String × JsValue)) : String :=
  transformXml platform nowFormatted response.bodyText xmlString params

/-- The data of one invoice page as assembled in `handleSetHtml`
(`src/pages/invoice-preview/page.tsx`): a creation timestamp and the five
structured pieces fed to the serializers. -/
structure InvoicePage where
  createDate : String
  companyInfo : XmlItem
  clientInfo : XmlItem
  headerInfo : XmlItem
  invoiceInfo : XmlItem
  items : List XmlItem

/-- One `<Invoice>` block exactly as written in the template literal of
`handleSetHtml` (`src/pages/invoice-preview/page.tsx`, lines 39 to 58),
whitespace included, generalized over the page data. -/
def invoicePageBlock (p : InvoicePage) : String :=
  "\n            <Invoice>\n                " ++
    variableToXml "createDate" (.str p.createDate) ++
    "\n                " ++ objectToXml "companyInfo" p.companyInfo ++
    "\n                " ++ objectToXml "clientInfo" p.clientInfo ++
    "\n                " ++ objectToXml "headerInfo" p.headerInfo ++
    "\n                " ++ objectToXml "invoiceInfo" p.invoiceInfo ++
    "\n                " ++ listToXml "invoiceItems" "invoiceItem" p.items ++
    "\n            </Invoice>"

/-- Modelled from the spec: `assembleInvoiceXml` of section 4.3 is described
over an arbitrary sequence of pages, while the source only contains its
instantiation at two identical pages inside `handleSetHtml`
(`src/pages/invoice-preview/page.tsx`, lines 39 to 58).  The definition
keeps the template literal of the source verbatim, one `invoicePageBlock`
per page in input order inside the single `<Invoices>` root. -/
def assembleInvoiceXml (pages : List InvoicePage) : String :=
  "\n        <Invoices>" ++ strConcat (pages.map invoicePageBlock) ++
    "\n        </Invoices>\n    "

/-- The literal `xmlString` template of `handleSetHtml`
(`src/pages/invoice-preview/page.tsx`, lines 39 to 58), transcribed directly:
two `<Invoice>` blocks built from the same generated data. -/
def handleSetHtmlXmlString (now : String)
    (companyInfo clientInfo headerInfo invoiceInfo : XmlItem)
    (list : List XmlItem) : String :=
  "\n        <Invoices>\n            <Invoice>\n                " ++
    variableToXml "createDate" (.str now) ++
    "\n                " ++ objectToXml "companyInfo" companyInfo ++
    "\n                " ++ objectToXml "clientInfo" clientInfo ++
    "\n                " ++ objectToXml "headerInfo" headerInfo ++
    "\n                " ++ objectToXml "invoiceInfo" invoiceInfo ++
    "\n                " ++ listToXml "invoiceItems" "invoiceItem" list ++
    "\n            </Invoice>\n            <Invoice>\n                " ++
    variableToXml "createDate" (.str now) ++
    "\n                " ++ objectToXml "companyInfo" companyInfo ++
    "\n                " ++ objectToXml "clientInfo" clientInfo ++
    "\n                " ++ objectToXml "headerInfo" headerInfo ++
    "\n                " ++ objectToXml "invoiceInfo" invoiceInfo ++
    "\n                " ++ listToXml "invoiceItems" "invoiceItem" list ++
    "\n            </Invoice>\n        </Invoices>\n    "

/-- A page with empty data, used as the lookup default for page lists. -/
def emptyPage : InvoicePage := ⟨"", [], [], [], [], []⟩

/-- Splits a character list at the first occurrence of `stop`, returning the
part before it and the part after it, or `none` when `stop` never occurs. -/
def splitAtChar (stop : Char) : List Char → Option (List Char × List Char)
  | [] => none
  | c :: cs =>
    if c = stop then some ([], cs)
    else
      match splitAtChar stop cs with
      | none => none
      | some (pre, post) => some (c :: pre, post)

/-- A character that XML parsing treats as plain text content: anything but
the markup opener and the entity-reference opener. -/
def xmlTextChar (c : Char) : Bool := c ≠ '<' && c ≠ '&'

/-- Modelled from the spec: the platform DOM parsing used by the round-trip
property of section 8, restricted to the markup shape `scalarToElement`
emits, a single element with text-only content.  It reads an open tag, the
literal text run (stopping at a markup or entity opener, which a conforming
parser would treat specially), and a matching close tag, yielding the tag
name and the text content. -/
def parseSimpleElement (s : String) : Option (String × String) :=
  match s.data with
  | '<' :: rest =>
    match splitAtChar '>' rest with
    | none => none
    | some (tag, rest1) =>
      match rest1.dropWhile xmlTextChar with
      | '<' :: '/' :: rest2 =>
        if rest2 = tag ++ ['>'] then
          some (String.mk tag, String.mk (rest1.takeWhile xmlTextChar))
        else none
      | _ => none
  | _ => none

/-! Basic string and concatenation lemmas used throughout. -/

lemma string_data_empty : ("" : String).data = [] := rfl

lemma string_append_assoc (a b c : String) : a ++ b ++ c = a ++ (b ++ c) := by
  apply String.ext
  simp [String.data_append, List.append_assoc]

lemma string_append_empty (a : String) : a ++ "" = a := by
  apply String.ext
  simp [String.data_append, string_data_empty]

lemma string_empty_append (a : String) : "" ++ a = a := by
  apply String.ext
  simp [String.data_append, string_data_empty]

lemma strConcat_append (l1 l2 : List String) :
    strConcat (l1 ++ l2) = strConcat l1 ++ strConcat l2 := by
  induction l1 with
  | nil => simp [strConcat, string_empty_append]
  | cons s l ih => simp [strConcat, ih, string_append_assoc]

lemma strConcat_pair_decomp (l : List String) (i : Nat) (h : i + 1 < l.length) :
    ∃ u w, strConcat l = u ++ (l.getD i "" ++ (l.getD (i + 1) "" ++ w)) := by
  induction l generalizing i with
  | nil => simp at h
  | cons s rest ih =>
    cases i with
    | zero =>
      match rest, h with
      | r :: rs, _ =>
        refine ⟨"", strConcat rs, ?_⟩
        simp [strConcat, List.getD, string_append_assoc, string_empty_append]
    | succ i =>
      have h2 : i + 1 < rest.length := by simpa using h
      obtain ⟨u, w, hu⟩ := ih i h2
      refine ⟨s ++ u, w, ?_⟩
      simp [strConcat, hu, string_append_assoc, List.getD]

lemma strConcat_mem_decomp (l : List String) (x : String) (h : x ∈ l) :
    ∃ u w, strConcat l = u ++ (x ++ w) := by
  induction l with
  | nil => cases h
  | cons s rest ih =>
    rcases List.mem_cons.mp h with rfl | hmem
    · exact ⟨"", strConcat rest, by simp [strConcat, string_empty_append]⟩
    · obtain ⟨u, w, hu⟩ := ih hmem
      exact ⟨s ++ u, w, by simp [strConcat, hu, string_append_assoc]⟩

lemma jsArrayToString_pair_decomp (l : List String) (i : Nat) (h : i + 1 < l.length) :
    ∃ u w,
      jsArrayToString l = u ++ (l.getD i "" ++ ("," ++ (l.getD (i + 1) "" ++ w))) := by
  induction l generalizing i with
  | nil => simp at h
  | cons s rest ih =>
    cases i with
    | zero =>
      match rest, h with
      | t :: rs, _ =>
        cases rs with
        | nil =>
          refine ⟨"", "", ?_⟩
          simp [jsArrayToString, List.getD, string_append_assoc, string_empty_append,
            string_append_empty]
        | cons t2 rs2 =>
          refine ⟨"", "," ++ jsArrayToString (t2 :: rs2), ?_⟩
          simp [jsArrayToString, List.getD, string_append_assoc, string_empty_append]
    | succ i =>
      have h2 : i + 1 < rest.length := by simpa using h
      obtain ⟨u, w, hu⟩ := ih i h2
      match rest, h2, hu with
      | t :: rs, _, hu =>
        refine ⟨s ++ ("," ++ u), w, ?_⟩
        simp [jsArrayToString, hu, string_append_assoc, List.getD]

lemma jsArrayToString_mem_decomp (l : List String) (x : String) (h : x ∈ l) :
    ∃ u w, jsArrayToString l = u ++ (x ++ w) := by
  induction l with
  | nil => cases h
  | cons s rest ih =>
    rcases List.mem_cons.mp h with rfl | hmem
    · cases rest with
      | nil =>
        exact ⟨"", "", by simp [jsArrayToString, string_empty_append, string_append_empty]⟩
      | cons t rs =>
        exact ⟨"", "," ++ jsArrayToString (t :: rs),
          by simp [jsArrayToString, string_append_assoc, string_empty_append]⟩
    · cases rest with
      | nil => cases hmem
      | cons t rs =>
        obtain ⟨u, w, hu⟩ := ih hmem
        exact ⟨s ++ ("," ++ u), w, by simp [jsArrayToString, hu, string_append_assoc]⟩

lemma list_getD_map {α β : Type} (f : α → β) (l : List α) (i : Nat) (d : α) :
    (l.map f).getD i (f d) = f (l.getD i d) := by
  induction l generalizing i with
  | nil => simp [List.getD]
  | cons a rest ih => cases i <;> simp [List.getD, ih]

lemma getD_map_lt {α β : Type} (f : α → β) (l : List α) (i : Nat) (h : i < l.length)
    (d : α) (d2 : β) : (l.map f).getD i d2 = f (l.getD i d) := by
  have h2 : i < (l.map f).length := by simpa using h
  rw [List.getD_eq_getElem _ _ h2, List.getD_eq_getElem _ _ h, List.getElem_map]

/-! Character data of the literal chunks of the templates. -/

lemma data_lt : ("<" : String).data = ['<'] := rfl

lemma data_gt : (">" : String).data = ['>'] := rfl

lemma data_close : ("</" : String).data = ['<', '/'] := rfl

lemma data_open_ws4 : (">\n    " : String).data = ['>', '\n', ' ', ' ', ' ', ' '] := rfl

lemma data_close_ws2 : ("\n  </" : String).data = ['\n', ' ', ' ', '<', '/'] := rfl

lemma data_field : ("field" : String).data = ['f', 'i', 'e', 'l', 'd'] := rfl

lemma data_inv_open :
    ("\n            <Invoice>\n                " : String).data
      = ("\n            " : String).data
        ++ (("<Invoice>" : String).data ++ ("\n                " : String).data) := by
  decide

lemma data_inv_close :
    ("\n            </Invoice>" : String).data
      = ("\n            " : String).data ++ ("</Invoice>" : String).data := by
  decide

lemma data_root_open :
    ("\n        <Invoices>\n            <Invoice>\n                " : String).data
      = ("\n        <Invoices>" : String).data
        ++ ("\n            <Invoice>\n                " : String).data := by
  decide

lemma data_between_blocks :
    ("\n            </Invoice>\n            <Invoice>\n                " : String).data
      = ("\n            </Invoice>" : String).data
        ++ ("\n            <Invoice>\n                " : String).data := by
  decide

lemma data_root_close :
    ("\n            </Invoice>\n        </Invoices>\n    " : String).data
      = ("\n            </Invoice>" : String).data
        ++ ("\n        </Invoices>\n    " : String).data := by
  decide

/-! Lemmas about the minimal element parser. -/

lemma splitAtChar_eq (stop : Char) (pre post : List Char) (h : stop ∉ pre) :
    splitAtChar stop (pre ++ stop :: post) = some (pre, post) := by
  induction pre with
  | nil => simp [splitAtChar]
  | cons c cs ih =>
    have hc : ¬ c = stop := fun e => h (by simp [e])
    simp [splitAtChar, hc, ih (fun hm => h (List.mem_cons_of_mem _ hm))]

lemma takeWhile_all_append (p : Char → Bool) (l : List Char) (x : Char) (xs : List Char)
    (hl : ∀ c ∈ l, p c = true) (hx : p x = false) :
    (l ++ x :: xs).takeWhile p = l ∧ (l ++ x :: xs).dropWhile p = x :: xs := by
  induction l with
  | nil => simp [List.takeWhile, List.dropWhile, hx]
  | cons c cs ih =>
    have hc : p c = true := hl c (by simp)
    have h2 := ih (fun d hd => hl d (by simp [hd]))
    simp [List.takeWhile_cons, List.dropWhile_cons, hc, h2.1, h2.2]

lemma parseSimpleElement_spec (tag : List Char) (t : String)
    (htag : '>' ∉ tag)
    (ht : ∀ c ∈ t.data, xmlTextChar c = true) :
    parseSimpleElement
        (String.mk ('<' :: (tag ++ '>' :: (t.data ++ '<' :: '/' :: (tag ++ ['>'])))))
      = some (String.mk tag, t) := by
  have hsplit := splitAtChar_eq '>' tag (t.data ++ '<' :: '/' :: (tag ++ ['>'])) htag
  have hwhile :=
    takeWhile_all_append xmlTextChar t.data '<' ('/' :: (tag ++ ['>'])) ht (by decide)
  simp only [parseSimpleElement, hsplit]
  rw [hwhile.2, hwhile.1]
  simp

/-! Lemmas about the parameter table of the processor. -/

lemma getParameter_setParameter_self (st : ProcParams) (key : String) (v : JsValue) :
    getParameter (setParameter st key v) key = some v := by
  simp [getParameter, setParameter]

lemma getParameter_setParameter_ne (st : ProcParams) (key key2 : String) (v : JsValue)
    (h : key2 ≠ key) : getParameter (setParameter st key v) key2 = getParameter st key2 := by
  have hb : ((key, v).1 == key2) = false := by
    simp [Ne.symm h]
  simp [getParameter, setParameter, List.find?_cons_of_neg, hb]

/-- C1: `transformXml` registers every caller parameter first and then
unconditionally registers `create-date` with the formatted current
timestamp, so the final binding of `create-date` reaching the platform is
always the injected value, every other name keeps its caller binding, and a
caller entry `create-date = IGNORED` never survives. -/
theorem transformXml_create_date_override (platform : XsltPlatform)
    (nowFormatted xsltString xmlString : String) (params : List (String × JsValue)) :
    transformXml platform nowFormatted xsltString xmlString params
        = platform.applyTransform xsltString xmlString (registerParams params nowFormatted)
      ∧ getParameter (registerParams params nowFormatted) "create-date"
          = some (JsValue.str nowFormatted)
      ∧ (∀ key, key ≠ "create-date" →
          getParameter (registerParams params nowFormatted) key
            = getParameter (params.foldl (fun st kv => setParameter st kv.1 kv.2) []) key)
      ∧ (nowFormatted ≠ "IGNORED" →
          getParameter (registerParams [("create-date", JsValue.str "IGNORED")] nowFormatted)
              "create-date"
            ≠ some (JsValue.str "IGNORED")) := by
  refine ⟨rfl, ?_, ?_, ?_⟩
  · simp [registerParams, getParameter_setParameter_self]
  · intro key hk
    simp [registerParams, getParameter_setParameter_ne _ _ _ _ hk]
  · intro hnow
    have hself :
        getParameter (registerParams [("create-date", JsValue.str "IGNORED")] nowFormatted)
            "create-date"
          = some (JsValue.str nowFormatted) := by
      simp [registerParams, getParameter_setParameter_self]
    rw [hself]
    simpa using hnow

/-- Witness for C1 at a concrete caller map and a concrete clock reading. -/
theorem transformXml_create_date_override_witness :
    getParameter
        (registerParams [("create-date", JsValue.str "IGNORED")]
          "Friday, January 5, 2024 at 10:00:00 AM GMT+3")
        "create-date"
      ≠ some (JsValue.str "IGNORED") :=
  (transformXml_create_date_override ⟨fun _ _ _ => ""⟩
      "Friday, January 5, 2024 at 10:00:00 AM GMT+3" "" ""
      [("create-date", JsValue.str "IGNORED")]).2.2.2
    (by decide)

/-- C10: `generateInvoiceHtml` hands the fetched body text to `transformXml`
as the stylesheet together with the XML string and the parameters and returns
the result directly; the outcome depends only on the body text, never on the
status or success flag, so a failed fetch that still returns a body is
treated as valid stylesheet text. -/
theorem generateInvoiceHtml_no_status_check (platform : XsltPlatform)
    (nowFormatted : String) (response : FetchResponse) (xmlString : String)
    (params : List (String × JsValue)) :
    generateInvoiceHtml platform nowFormatted response xmlString params
        = platform.applyTransform response.bodyText xmlString
            (registerParams params nowFormatted)
      ∧ (∀ response2 : FetchResponse, response2.bodyText = response.bodyText →
          generateInvoiceHtml platform nowFormatted response2 xmlString params
            = generateInvoiceHtml platform nowFormatted response xmlString params) := by
  refine ⟨rfl, ?_⟩
  intro r2 h
  simp [generateInvoiceHtml, transformXml, h]

/-- Witness for C10: a status-500 failed response with an error page body is
processed exactly like a status-200 response with the same body. -/
theorem generateInvoiceHtml_no_status_check_witness :
    generateInvoiceHtml ⟨fun xslt xml _ => xslt ++ xml⟩ "now"
        ⟨500, false, "<html>Not Found</html>"⟩ "<a/>" []
      = generateInvoiceHtml ⟨fun xslt xml _ => xslt ++ xml⟩ "now"
        ⟨200, true, "<html>Not Found</html>"⟩ "<a/>" [] :=
  (generateInvoiceHtml_no_status_check ⟨fun xslt xml _ => xslt ++ xml⟩ "now"
      ⟨200, true, "<html>Not Found</html>"⟩ "<a/>" []).2
    ⟨500, false, "<html>Not Found</html>"⟩ rfl

/-- C6: `variableToXml` returns exactly the open tag, the default text
coercion of the value and the close tag, character for character, with
nothing added; strings pass through unchanged, integers and booleans appear
in their literal text form. -/
theorem variableToXml_exact (name : String) (value : JsValue) :
    (variableToXml name value).data
        = '<' :: (name.data ++ '>' :: ((jsValueToString value).data
            ++ '<' :: '/' :: (name.data ++ ['>'])))
      ∧ (∀ s, jsValueToString (JsValue.str s) = s)
      ∧ (∀ n : Int, jsValueToString (JsValue.num n) = toString n)
      ∧ jsValueToString (JsValue.boolean true) = "true"
      ∧ jsValueToString (JsValue.boolean false) = "false" := by
  refine ⟨?_, fun s => rfl, fun n => rfl, rfl, rfl⟩
  simp [variableToXml, String.data_append, data_lt, data_gt, data_close]

/-- C9: the three serializers are total: every input, including empty
records, empty lists and each scalar shape, yields a string, with the edge
cases evaluated explicitly. -/
theorem serializers_total :
    (∀ tagName, objectToXml tagName []
        = "<" ++ tagName ++ ">\n    " ++ "\n  </" ++ tagName ++ ">")
      ∧ (∀ tagName itemName, listToXml tagName itemName []
          = "<" ++ tagName ++ ">" ++ "</" ++ tagName ++ ">")
      ∧ (∀ name value, ∃ s, variableToXml name value = s)
      ∧ (∀ tagName obj, ∃ s, objectToXml tagName obj = s)
      ∧ (∀ tagName itemName items, ∃ s, listToXml tagName itemName items = s)
      ∧ variableToXml "q" (JsValue.boolean true) = "<q>true</q>"
      ∧ variableToXml "q" (JsValue.boolean false) = "<q>false</q>"
      ∧ variableToXml "q" (JsValue.num (-7)) = "<q>-7</q>"
      ∧ variableToXml "q" (JsValue.str "") = "<q></q>" := by
  refine ⟨?_, ?_, fun n v => ⟨_, rfl⟩, fun t o => ⟨_, rfl⟩, fun t i l => ⟨_, rfl⟩,
    by decide, by decide, by decide, by decide⟩
  · intro tagName
    simp [objectToXml, jsArrayToString, string_append_empty]
  · intro tagName itemName
    simp [listToXml, strConcat, string_append_empty]

/-- Counterexample to C3: on a two-key record the two child fragments are
not concatenated with nothing between them — the actual output carries a
comma separator, and the adjacent concatenation of the two fragments occurs
nowhere in it. -/
theorem objectToXml_comma_counterexample :
    objectToXml "t" [("a", JsValue.str "1"), ("b", JsValue.str "2")]
        = "<t>\n    <a>1</a>,<b>2</b>\n  </t>"
      ∧ ¬ ("<a>1</a><b>2</b>".data <:+:
            (objectToXml "t" [("a", JsValue.str "1"), ("b", JsValue.str "2")]).data) := by
  refine ⟨by decide, by decide⟩

/-- C3 amended: `objectToXml` produces the open tag, the template whitespace,
the per-key `scalarToElement` fragments in iteration order joined by the
comma that the default array-to-string coercion inserts, the template
whitespace and the close tag; one fragment per key. -/
theorem objectToXml_amended (tagName : String) (obj : XmlItem) :
    objectToXml tagName obj
        = "<" ++ tagName ++ ">\n    "
          ++ jsArrayToString (obj.map (fun kv => variableToXml kv.1 kv.2))
          ++ "\n  </" ++ tagName ++ ">"
      ∧ (obj.map (fun kv => variableToXml kv.1 kv.2)).length = obj.length := by
  constructor
  · rw [show (fun kv : String × JsValue => variableToXml kv.1 kv.2) = entryFragment from rfl]
    rfl
  · simp

/-- C4: between any two consecutive entry fragments of `objectToXml`, and of
the per-item expansion inside `listToXml`, the output carries a literal
comma, because the mapped array is interpolated without a join; with zero or
one keys no comma is introduced beyond those already in the inputs. -/
theorem serializer_comma_coercion :
    (∀ tagName (obj : XmlItem) (i : Nat), i + 1 < obj.length →
        ∃ u w, objectToXml tagName obj
          = u ++ (entryFragment (obj.getD i ("", JsValue.str ""))
              ++ ("," ++ (entryFragment (obj.getD (i + 1) ("", JsValue.str "")) ++ w))))
      ∧ (∀ tagName itemName (items : List XmlItem) (item : XmlItem) (i : Nat),
          item ∈ items → i + 1 < item.length →
          ∃ u w, listToXml tagName itemName items
            = u ++ (entryFragment (item.getD i ("", JsValue.str ""))
                ++ ("," ++ (entryFragment (item.getD (i + 1) ("", JsValue.str "")) ++ w))))
      ∧ (∀ tagName key value,
          ',' ∈ (objectToXml tagName [(key, value)]).data
            ↔ (',' ∈ tagName.data ∨ ',' ∈ key.data ∨ ',' ∈ (jsValueToString value).data))
      ∧ (∀ tagName, ',' ∈ (objectToXml tagName []).data ↔ ',' ∈ tagName.data) := by
  refine ⟨?_, ?_, ?_, ?_⟩
  · intro tagName obj i h
    obtain ⟨u, w, hu⟩ :=
      jsArrayToString_pair_decomp (obj.map entryFragment) i (by simpa using h)
    rw [getD_map_lt entryFragment obj i (by omega) ("", JsValue.str "") ""] at hu
    rw [getD_map_lt entryFragment obj (i + 1) (by omega) ("", JsValue.str "") ""] at hu
    refine ⟨"<" ++ tagName ++ ">\n    " ++ u, w ++ ("\n  </" ++ tagName ++ ">"), ?_⟩
    simp [objectToXml, hu, string_append_assoc]
  · intro tagName itemName items item i hmem h
    obtain ⟨u2, w2, h2⟩ :=
      jsArrayToString_pair_decomp (item.map entryFragment) i (by simpa using h)
    rw [getD_map_lt entryFragment item i (by omega) ("", JsValue.str "") ""] at h2
    rw [getD_map_lt entryFragment item (i + 1) (by omega) ("", JsValue.str "") ""] at h2
    obtain ⟨u1, w1, h1⟩ :=
      strConcat_mem_decomp
        (items.map (invoiceItemBlock itemName)) (invoiceItemBlock itemName item)
        (List.mem_map_of_mem (invoiceItemBlock itemName) hmem)
    rw [invoiceItemBlock, h2] at h1
    refine ⟨"<" ++ tagName ++ ">"
        ++ (u1 ++ ("<" ++ itemName ++ ">\n            " ++ u2)),
      w2 ++ ("\n        </" ++ itemName ++ ">" ++ (w1 ++ ("</" ++ tagName ++ ">"))), ?_⟩
    simp only [listToXml]
    rw [show (fun item => "<" ++ itemName ++ ">\n            " ++
        jsArrayToString (item.map entryFragment) ++
        "\n        </" ++ itemName ++ ">") = invoiceItemBlock itemName from rfl]
    rw [h1]
    simp [string_append_assoc]
  · intro tagName key value
    simp [objectToXml, jsArrayToString, entryFragment, String.data_append,
      data_lt, data_gt, data_close, data_open_ws4, data_close_ws2]
    tauto
  · intro tagName
    simp [objectToXml, jsArrayToString, String.data_append,
      data_lt, data_gt, data_open_ws4, data_close_ws2, string_data_empty]

/-- Witness for C4 at a two-key record and a one-item list holding it. -/
theorem serializer_comma_coercion_witness :
    (∃ u w, objectToXml "t" [("a", JsValue.str "1"), ("b", JsValue.str "2")]
        = u ++ (entryFragment ("a", JsValue.str "1")
            ++ ("," ++ (entryFragment ("b", JsValue.str "2") ++ w))))
      ∧ (∃ u w, listToXml "items" "item" [[("a", JsValue.str "1"), ("b", JsValue.str "2")]]
          = u ++ (entryFragment ("a", JsValue.str "1")
              ++ ("," ++ (entryFragment ("b", JsValue.str "2") ++ w)))) := by
  constructor
  · simpa [List.getD] using
      (serializer_comma_coercion.1 "t" [("a", JsValue.str "1"), ("b", JsValue.str "2")] 0
        (by decide))
  · simpa [List.getD] using
      (serializer_comma_coercion.2.1 "items" "item"
        [[("a", JsValue.str "1"), ("b", JsValue.str "2")]]
        [("a", JsValue.str "1"), ("b", JsValue.str "2")] 0 (List.mem_singleton.mpr rfl)
        (by decide))

/-- C5: `listToXml` wraps one `invoiceItemBlock` per item inside the root
tag pair, and any two consecutive blocks appear adjacently, in input order,
with no separator between them. -/
theorem listToXml_order_preserved (tagName itemName : String) (items : List XmlItem)
    (i : Nat) (h : i + 1 < items.length) :
    (listToXml tagName itemName items
        = "<" ++ tagName ++ ">"
          ++ strConcat (items.map (invoiceItemBlock itemName))
          ++ "</" ++ tagName ++ ">")
      ∧ ∃ u w, listToXml tagName itemName items
          = u ++ (invoiceItemBlock itemName (items.getD i [])
              ++ (invoiceItemBlock itemName (items.getD (i + 1) []) ++ w)) := by
  constructor
  · rfl
  · obtain ⟨u, w, hu⟩ :=
      strConcat_pair_decomp (items.map (invoiceItemBlock itemName)) i (by simpa using h)
    rw [getD_map_lt (invoiceItemBlock itemName) items i (by omega) [] ""] at hu
    rw [getD_map_lt (invoiceItemBlock itemName) items (i + 1) (by omega) [] ""] at hu
    refine ⟨"<" ++ tagName ++ ">" ++ u, w ++ ("</" ++ tagName ++ ">"), ?_⟩
    simp only [listToXml]
    rw [show (fun item => "<" ++ itemName ++ ">\n            " ++
        jsArrayToString (item.map entryFragment) ++
        "\n        </" ++ itemName ++ ">") = invoiceItemBlock itemName from rfl]
    rw [hu]
    simp [string_append_assoc]

/-- Witness for C5: two one-entry items with distinct id values appear as
two adjacent blocks in input order. -/
theorem listToXml_order_preserved_witness :
    ∃ u w, listToXml "invoiceItems" "invoiceItem"
        [[("id", JsValue.str "A")], [("id", JsValue.str "B")]]
      = u ++ (invoiceItemBlock "invoiceItem" [("id", JsValue.str "A")]
          ++ (invoiceItemBlock "invoiceItem" [("id", JsValue.str "B")] ++ w)) := by
  simpa [List.getD] using
    (listToXml_order_preserved "invoiceItems" "invoiceItem"
      [[("id", JsValue.str "A")], [("id", JsValue.str "B")]] 0 (by decide)).2

/-- C7: for a scalar whose text form has no reserved XML character, parsing
the markup of `scalarToElement("field", v)` yields an element whose text
content is exactly the text form of the scalar. -/
theorem scalar_roundtrip (value : JsValue)
    (h : ∀ c ∈ (jsValueToString value).data, xmlTextChar c = true) :
    parseSimpleElement (variableToXml "field" value)
      = some ("field", jsValueToString value) := by
  have hdata : variableToXml "field" value
      = String.mk ('<' :: ("field".data ++ '>' ::
          ((jsValueToString value).data ++ '<' :: '/' :: ("field".data ++ ['>'])))) := by
    apply String.ext
    simp [variableToXml, String.data_append, data_lt, data_gt, data_close]
  rw [hdata]
  simpa using parseSimpleElement_spec "field".data (jsValueToString value) (by decide) h

/-- Witness for C7 at a concrete reserved-character-free string scalar. -/
theorem scalar_roundtrip_witness :
    parseSimpleElement (variableToXml "field" (JsValue.str "Hello 42"))
      = some ("field", jsValueToString (JsValue.str "Hello 42")) :=
  scalar_roundtrip (JsValue.str "Hello 42") (by decide)

/-- C8: the serializers never escape reserved XML characters: the ampersand
and angle-bracket counts of the output of `variableToXml` are exactly the
counts contributed by the inputs plus the fixed tag skeleton, and the raw
text form of any record value occurs literally inside the output of
`objectToXml` and `listToXml`. -/
theorem serializer_no_escaping :
    (∀ name value,
        (variableToXml name value).data.count '&'
            = 2 * name.data.count '&' + (jsValueToString value).data.count '&'
          ∧ (variableToXml name value).data.count '<'
              = 2 * name.data.count '<' + (jsValueToString value).data.count '<' + 2)
      ∧ (∀ tagName (obj : XmlItem) key value, (key, value) ∈ obj →
          ∃ u w, objectToXml tagName obj = u ++ (jsValueToString value ++ w))
      ∧ (∀ tagName itemName (items : List XmlItem) (item : XmlItem) key value,
          item ∈ items → (key, value) ∈ item →
          ∃ u w, listToXml tagName itemName items = u ++ (jsValueToString value ++ w)) := by
  refine ⟨?_, ?_, ?_⟩
  · intro name value
    constructor
    · simp [variableToXml, String.data_append, data_lt, data_gt, data_close,
        List.count_append, List.count_cons]
      omega
    · simp [variableToXml, String.data_append, data_lt, data_gt, data_close,
        List.count_append, List.count_cons]
      omega
  · intro tagName obj key value hmem
    obtain ⟨u, w, hu⟩ :=
      jsArrayToString_mem_decomp (obj.map entryFragment) (entryFragment (key, value))
        (List.mem_map_of_mem entryFragment hmem)
    rw [entryFragment] at hu
    refine ⟨"<" ++ tagName ++ ">\n    " ++ (u ++ ("<" ++ key ++ ">")),
      "</" ++ key ++ ">" ++ (w ++ ("\n  </" ++ tagName ++ ">")), ?_⟩
    simp only [objectToXml]
    rw [hu]
    simp [string_append_assoc]
  · intro tagName itemName items item key value hmem hkv
    obtain ⟨u2, w2, h2⟩ :=
      jsArrayToString_mem_decomp (item.map entryFragment) (entryFragment (key, value))
        (List.mem_map_of_mem entryFragment hkv)
    rw [entryFragment] at h2
    obtain ⟨u1, w1, h1⟩ :=
      strConcat_mem_decomp
        (items.map (invoiceItemBlock itemName)) (invoiceItemBlock itemName item)
        (List.mem_map_of_mem (invoiceItemBlock itemName) hmem)
    rw [invoiceItemBlock, h2] at h1
    refine ⟨"<" ++ tagName ++ ">"
        ++ (u1 ++ ("<" ++ itemName ++ ">\n            " ++ (u2 ++ ("<" ++ key ++ ">")))),
      "</" ++ key ++ ">"
        ++ (w2 ++ ("\n        </" ++ itemName ++ ">" ++ (w1 ++ ("</" ++ tagName ++ ">")))),
      ?_⟩
    simp only [listToXml]
    rw [show (fun item => "<" ++ itemName ++ ">\n            " ++
        jsArrayToString (item.map entryFragment) ++
        "\n        </" ++ itemName ++ ">") = invoiceItemBlock itemName from rfl]
    rw [h1]
    simp [string_append_assoc]

/-- Witness for C8: a value containing both reserved characters appears
literally, unescaped, in the record and list outputs. -/
theorem serializer_no_escaping_witness :
    (∃ u w, objectToXml "t" [("k", JsValue.str "A&B<C")]
        = u ++ (jsValueToString (JsValue.str "A&B<C") ++ w))
      ∧ (∃ u w, listToXml "items" "item" [[("k", JsValue.str "A&B<C")]]
          = u ++ (jsValueToString (JsValue.str "A&B<C") ++ w)) :=
  ⟨serializer_no_escaping.2.1 "t" [("k", JsValue.str "A&B<C")] "k" (JsValue.str "A&B<C")
      (List.mem_singleton.mpr rfl),
    serializer_no_escaping.2.2 "items" "item" [[("k", JsValue.str "A&B<C")]]
      [("k", JsValue.str "A&B<C")] "k" (JsValue.str "A&B<C")
      (List.mem_singleton.mpr rfl) (List.mem_singleton.mpr rfl)⟩

/-- C2: the assembled invoice XML is one `Invoices` root wrapping, for every
page in input order, one `Invoice` block whose body is the six serializer
outputs in the fixed order `createDate`, `companyInfo`, `clientInfo`,
`headerInfo`, `invoiceInfo`, `invoiceItems` separated only by template
whitespace; consecutive page blocks are adjacent, and the literal template of
`handleSetHtml` is the two-page instance of this assembly. -/
theorem assembleInvoiceXml_structure (pages : List InvoicePage) :
    (assembleInvoiceXml pages
        = "\n        <Invoices>" ++ strConcat (pages.map invoicePageBlock)
          ++ "\n        </Invoices>\n    ")
      ∧ ("\n        " ++ "<Invoices>" = "\n        <Invoices>"
          ∧ "\n        " ++ "</Invoices>" ++ "\n    " = "\n        </Invoices>\n    ")
      ∧ ("\n        ".data.all Char.isWhitespace = true
          ∧ "\n            ".data.all Char.isWhitespace = true
          ∧ "\n                ".data.all Char.isWhitespace = true
          ∧ "\n    ".data.all Char.isWhitespace = true)
      ∧ (pages.map invoicePageBlock).length = pages.length
      ∧ (∀ p : InvoicePage, invoicePageBlock p
          = ("\n            " ++ "<Invoice>")
            ++ (("\n                "
                  ++ variableToXml "createDate" (JsValue.str p.createDate))
              ++ (("\n                " ++ objectToXml "companyInfo" p.companyInfo)
                ++ (("\n                " ++ objectToXml "clientInfo" p.clientInfo)
                  ++ (("\n                " ++ objectToXml "headerInfo" p.headerInfo)
                    ++ (("\n                " ++ objectToXml "invoiceInfo" p.invoiceInfo)
                      ++ (("\n                "
                            ++ listToXml "invoiceItems" "invoiceItem" p.items)
                        ++ ("\n            " ++ "</Invoice>"))))))))
      ∧ (∀ i : Nat, i + 1 < pages.length →
          ∃ u w, assembleInvoiceXml pages
            = u ++ (invoicePageBlock (pages.getD i emptyPage)
                ++ (invoicePageBlock (pages.getD (i + 1) emptyPage) ++ w)))
      ∧ (∀ now companyInfo clientInfo headerInfo invoiceInfo list,
          handleSetHtmlXmlString now companyInfo clientInfo headerInfo invoiceInfo list
            = assembleInvoiceXml
                [⟨now, companyInfo, clientInfo, headerInfo, invoiceInfo, list⟩,
                  ⟨now, companyInfo, clientInfo, headerInfo, invoiceInfo, list⟩]) := by
  refine ⟨rfl, ⟨by decide, by decide⟩, ⟨by decide, by decide, by decide, by decide⟩,
    by simp, ?_, ?_, ?_⟩
  · intro p
    apply String.ext
    simp [invoicePageBlock, String.data_append, data_inv_open, data_inv_close,
      List.append_assoc]
  · intro i h
    obtain ⟨u, w, hu⟩ :=
      strConcat_pair_decomp (pages.map invoicePageBlock) i (by simpa using h)
    rw [getD_map_lt invoicePageBlock pages i (by omega) emptyPage ""] at hu
    rw [getD_map_lt invoicePageBlock pages (i + 1) (by omega) emptyPage ""] at hu
    refine ⟨"\n        <Invoices>" ++ u, w ++ "\n        </Invoices>\n    ", ?_⟩
    simp only [assembleInvoiceXml]
    rw [hu]
    simp [string_append_assoc]
  · intro now companyInfo clientInfo headerInfo invoiceInfo list
    apply String.ext
    simp [handleSetHtmlXmlString, assembleInvoiceXml, invoicePageBlock, strConcat,
      String.data_append, data_root_open, data_between_blocks, data_root_close,
      string_data_empty, List.append_assoc]

/-- Witness for C2: with two concrete distinct pages the two blocks appear
adjacently in input order. -/
theorem assembleInvoiceXml_structure_witness :
    ∃ u w,
      assembleInvoiceXml
          [⟨"D1", [("companyName", JsValue.str "Acme")], [], [], [], []⟩,
            ⟨"D2", [("companyName", JsValue.str "Beta")], [], [], [], []⟩]
        = u ++ (invoicePageBlock ⟨"D1", [("companyName", JsValue.str "Acme")], [], [], [], []⟩
            ++ (invoicePageBlock ⟨"D2", [("companyName", JsValue.str "Beta")], [], [], [], []⟩
              ++ w)) := by
  simpa [List.getD] using
    (assembleInvoiceXml_structure
        [⟨"D1", [("companyName", JsValue.str "Acme")], [], [], [], []⟩,
          ⟨"D2", [("companyName", JsValue.str "Beta")], [], [], [], []⟩]).2.2.2.2.2.1 0
      (by decide)

end XsltGen
